import Mathlib

/-!
Shallow embedding of the numerical core of a Schrödinger-equation solver
(`schrodinger_solver/core.py`, `solver_1d.py`, `solver_2d.py`).

Matrix entries produced by the operator builders are floating-point numbers
obtained from exact integer arithmetic and divisions; they are modelled by
rationals.  Eigensolver output and wave functions are modelled over the
reals/complexes, with the external iterative eigensolver abstracted as an
oracle parameter (its validation behaviour is modelled from the spec).
-/

open Finset Matrix

/-- Entry grid of `sparse.diags([-2*ones(n), ones(n-1), ones(n-1)], [0, 1, -1])`:
the tridiagonal second-difference stencil before boundary handling. -/
def tridiag (n : ℕ) : Matrix (Fin n) (Fin n) ℚ :=
  Matrix.of fun i j =>
    if i = j then -2
    else if i.val + 1 = j.val ∨ j.val + 1 = i.val then 1
    else 0

/-- Single sparse-matrix entry assignment `M[r, c] = v` (numpy/scipy indexing
by position; out-of-range positions never arise in the modelled calls). -/
def setEntry {n : ℕ} (M : Matrix (Fin n) (Fin n) ℚ) (r c : ℕ) (v : ℚ) :
    Matrix (Fin n) (Fin n) ℚ :=
  Matrix.of fun i j => if i.val = r ∧ j.val = c then v else M i j

/-- Python `str.lower()`, modelled as per-code-point lowercasing (the strings
compared against are ASCII). -/
def pyLower (s : String) : String := String.mk (s.data.map Char.toLower)

/-- The membership test `boundary_condition.lower() in [dirichlet, periodic]`
performed by both Laplacian constructors. -/
def validBoundary (bc : String) : Bool :=
  pyLower bc == "dirichlet" || pyLower bc == "periodic"

/-- The tridiagonal stencil after the periodic corner assignments
`laplacian[0, n-1] = 1.0; laplacian[n-1, 0] = 1.0`. -/
def periodicBase (n : ℕ) : Matrix (Fin n) (Fin n) ℚ :=
  setEntry (setEntry (tridiag n) 0 (n - 1) 1) (n - 1) 0 1

/-- `construct_laplacian_1d(n_points, dx, boundary_condition)` from `core.py`.
Returns `none` exactly when the code raises, in the code's execution order:
an unrecognised boundary string (`ValueError` from the explicit check),
`n_points = 0` (where `np.ones(n_points - 1)` rejects a negative size), or
`dx = 0` (scipy sparse scalar division computes the Python reciprocal
`1./(dx**2)`, raising `ZeroDivisionError` in `-laplacian / (dx**2)`).
Otherwise builds the tridiagonal stencil, applies the periodic corner
assignments, and scales the whole matrix by `-1/dx**2`. -/
def construct_laplacian_1d (n_points : ℕ) (dx : ℚ) (boundary_condition : String) :
    Option (Matrix (Fin n_points) (Fin n_points) ℚ) :=
  if validBoundary boundary_condition then
    if n_points = 0 then none
    else if dx = 0 then none
    else
      let base :=
        if pyLower boundary_condition == "periodic" then periodicBase n_points
        else tridiag n_points
      some ((-1 / dx ^ 2) • base)
  else none

/-- The matrix described by the specification of the 1D Laplacian: diagonal
`-2`, first super/sub-diagonal `+1`, the corner entries `(0, n-1)` and
`(n-1, 0)` set to `+1` when periodic, everything multiplied by `-1/dx²`. -/
def laplacian_1d_claim (n : ℕ) (dx : ℚ) (periodic : Bool) :
    Matrix (Fin n) (Fin n) ℚ :=
  Matrix.of fun i j =>
    -1 / dx ^ 2 *
      (if periodic = true ∧ ((i.val = 0 ∧ j.val = n - 1) ∨ (i.val = n - 1 ∧ j.val = 0)) then 1
       else if i = j then -2
       else if i.val + 1 = j.val ∨ j.val + 1 = i.val then 1
       else 0)

/-- `scipy.sparse.kron(A, B)`: block structure `A[i, k] * B`, written on the
product index type (row `(i, j)` is flattened row `i * p + j`). -/
def spkron {m n p q : ℕ} (A : Matrix (Fin m) (Fin n) ℚ) (B : Matrix (Fin p) (Fin q) ℚ) :
    Matrix (Fin m × Fin p) (Fin n × Fin q) ℚ :=
  Matrix.of fun ik jl => A ik.1 jl.1 * B ik.2 jl.2

/-- `construct_laplacian_2d(nx, ny, dx, dy, boundary_condition)` from `core.py`:
validates the boundary string, builds the two 1D Laplacians, and combines them
as `kron(identity_y, laplacian_x) + kron(laplacian_y, identity_x)`. -/
def construct_laplacian_2d (nx ny : ℕ) (dx dy : ℚ) (boundary_condition : String) :
    Option (Matrix (Fin ny × Fin nx) (Fin ny × Fin nx) ℚ) :=
  if validBoundary boundary_condition then do
    let laplacian_x ← construct_laplacian_1d nx dx boundary_condition
    let laplacian_y ← construct_laplacian_1d ny dy boundary_condition
    some (spkron (1 : Matrix (Fin ny) (Fin ny) ℚ) laplacian_x +
          spkron laplacian_y (1 : Matrix (Fin nx) (Fin nx) ℚ))
  else none

/-- `construct_hamiltonian(laplacian, potential_values, hbar, mass)` from
`core.py`: kinetic term `-0.5 * (hbar**2 / mass) * laplacian` plus
`sparse.diags(potential_values)`. -/
def construct_hamiltonian (N : ℕ) (laplacian : Matrix (Fin N) (Fin N) ℚ)
    (potential_values : Fin N → ℚ) (hbar mass : ℚ) : Matrix (Fin N) (Fin N) ℚ :=
  let kinetic := Matrix.of fun i j => -(1 / 2) * (hbar ^ 2 / mass) * laplacian i j
  let potential := Matrix.of fun i j => if i = j then potential_values i else 0
  kinetic + potential

/-- Outcome of a successful partial eigensolve: `k` eigenvalues and the
`N x k` matrix whose columns are the corresponding eigenvectors (real, as
`eigsh` returns for a real symmetric input). -/
structure EigshResult (N k : ℕ) where
  eigenvalues : Fin k → ℝ
  eigenvectors : Fin N → Fin k → ℝ

/-- Abstraction of the numerical content of `scipy.sparse.linalg.eigsh` on one
fixed Hamiltonian: for each `which` mode and admissible state count `k` it
yields either a raw (unsorted) eigenpair set or a convergence failure. -/
def EigshOracle (N : ℕ) :=
  String → (k : ℕ) → Except String (EigshResult N k)

/-- The message of the dimension check rejection. -/
def eigshDimMessage : String :=
  "k must be strictly less than the matrix dimension"

/-- Modelled from the spec: `scipy.sparse.linalg.eigsh` is external code;
following section 4.2 of the spec, the requested state count must be strictly
less than the matrix dimension (a sparse partial eigensolver cannot return a
full basis), and the solve fails otherwise.  The numerical outcome for
admissible requests is the oracle parameter. -/
def eigsh (N : ℕ) (oracle : EigshOracle N) (k : ℕ) (which : String) :
    Except String (EigshResult N k) :=
  if k < N then oracle which k else Except.error eigshDimMessage

/-- The `np.argsort` reordering of `solve_schrodinger`: permute the
eigenvalues into non-decreasing order and the eigenvector columns by the same
permutation. -/
noncomputable def sortResult {N k : ℕ} (r : EigshResult N k) : EigshResult N k :=
  let σ := Tuple.sort r.eigenvalues
  { eigenvalues := fun i => r.eigenvalues (σ i)
    eigenvectors := fun x i => r.eigenvectors x (σ i) }

/-- `solve_schrodinger(hamiltonian, n_eigenstates, which)` from `core.py`:
run `eigsh`, then sort eigenvalues ascending and reorder the eigenvector
columns to match. -/
noncomputable def solve_schrodinger (N : ℕ) (oracle : EigshOracle N)
    (n_eigenstates : ℕ) (which : String) : Except String (EigshResult N n_eigenstates) :=
  (eigsh N oracle n_eigenstates which).map sortResult

/-- `time_evolution(initial_state, hamiltonian, time_points, hbar)` from
`core.py`: unconditionally solve for `min(20, N)` eigenstates, project the
initial state on the eigenbasis via `eigenvectors.T.conj() @ initial_state`,
then for each time `t` apply the phases `exp(-1j * E * t / hbar)` and map
back with `eigenvectors @ _`. -/
noncomputable def time_evolution (N : ℕ) (oracle : EigshOracle N)
    (initial_state : Fin N → ℂ) (time_points : List ℝ) (hbar : ℝ) :
    Except String (List (Fin N → ℂ)) :=
  (solve_schrodinger N oracle (min 20 N) "SM").map fun sol =>
    let coefficients : Fin (min 20 N) → ℂ := fun k =>
      ∑ x, (starRingEnd ℂ) ((sol.eigenvectors x k : ℝ) : ℂ) * initial_state x
    time_points.map fun (t : ℝ) => fun x =>
      ∑ k, ((sol.eigenvectors x k : ℝ) : ℂ) *
        (coefficients k * Complex.exp (-Complex.I * (sol.eigenvalues k : ℂ) * (t : ℂ) / (hbar : ℂ)))

/-- The state the specification prescribes at time `t`:
`Σ_k c_k · exp(-i·E_k·t/ħ) · φ_k` with `c_k = ⟨φ_k | ψ0⟩` the conjugate
inner product against the initial state. -/
noncomputable def spectral_state {N k : ℕ} (vals : Fin k → ℝ)
    (vecs : Fin N → Fin k → ℝ) (psi0 : Fin N → ℂ) (hbar t : ℝ) : Fin N → ℂ :=
  fun x =>
    ∑ j, (∑ y, (starRingEnd ℂ) ((vecs y j : ℝ) : ℂ) * psi0 y) *
      Complex.exp (-Complex.I * (vals j : ℂ) * (t : ℂ) / (hbar : ℂ)) * ((vecs x j : ℝ) : ℂ)

/-- `np.linspace(0, t_max, n_steps)`: `n_steps` evenly spaced points from `0`
to `t_max` inclusive (a single point is `0`, zero points is empty). -/
noncomputable def linspace (t_max : ℝ) (n_steps : ℕ) : List ℝ :=
  (List.range n_steps).map fun (i : ℕ) => t_max * (i : ℝ) / ((n_steps : ℝ) - 1)

/-- `np.trapz(y, x)`: trapezoidal-rule quadrature
`Σ_i (x[i+1] - x[i]) * (y[i] + y[i+1]) / 2`. -/
noncomputable def trapz (n : ℕ) (y x : Fin n → ℝ) : ℝ :=
  ∑ i : Fin (n - 1),
    (x ⟨i.val + 1, by omega⟩ - x ⟨i.val, by omega⟩) *
      (y ⟨i.val, by omega⟩ + y ⟨i.val + 1, by omega⟩) / 2

/-- The two `ValueError` conditions of the eigenfunction accessors. -/
inductive FacadeError where
  | invalidState
  | indexOutOfRange
deriving DecidableEq

/-- State of a `Schrodinger1D` facade relevant to the eigensolve/evolution
claims: the grid, `hbar`, the spectral content of the cached Hamiltonian
(as an eigsh oracle), and the cached `(eigenvalues, eigenvectors)` pair,
`none` before any `solve()` call.  The potential, `mass` and plotting fields
play no role in the modelled operations. -/
structure Schrodinger1D (n_points : ℕ) where
  x_grid : Fin n_points → ℝ
  hbar : ℝ
  oracle : EigshOracle n_points
  cached : Option ((k : ℕ) × EigshResult n_points k)

/-- Construction of the facade: eigenpairs start unset
(`self.eigenvalues = None; self.eigenvectors = None`). -/
def Schrodinger1D.init (n : ℕ) (x_grid : Fin n → ℝ) (hbar : ℝ)
    (oracle : EigshOracle n) : Schrodinger1D n :=
  { x_grid := x_grid, hbar := hbar, oracle := oracle, cached := none }

/-- `Schrodinger1D.solve(n_eigenstates, which)`: delegate to
`solve_schrodinger`, cache the result, and return it. -/
noncomputable def Schrodinger1D.solve {n : ℕ} (s : Schrodinger1D n)
    (n_eigenstates : ℕ) (which : String) :
    Except String (Schrodinger1D n × (Fin n_eigenstates → ℝ) × (Fin n → Fin n_eigenstates → ℝ)) :=
  (solve_schrodinger n s.oracle n_eigenstates which).map fun r =>
    ({ s with cached := some ⟨n_eigenstates, r⟩ }, r.eigenvalues, r.eigenvectors)

/-- `Schrodinger1D.get_eigenfunction(n)`: error if no solve has happened,
error if the index is outside `[0, k)`, otherwise the `n`-th eigenvector
divided by `sqrt(np.trapz(np.abs(psi)**2, x=x_grid))`. -/
noncomputable def Schrodinger1D.get_eigenfunction {n : ℕ} (s : Schrodinger1D n)
    (idx : ℤ) : Except FacadeError (Fin n → ℝ) :=
  match s.cached with
  | none => Except.error FacadeError.invalidState
  | some kr =>
    if h : idx < 0 ∨ (kr.1 : ℤ) ≤ idx then Except.error FacadeError.indexOutOfRange
    else
      let m : Fin kr.1 := ⟨idx.toNat, by omega⟩
      let psi : Fin n → ℝ := fun x => kr.2.eigenvectors x m
      let norm := Real.sqrt (trapz n (fun x => |psi x| ^ 2) s.x_grid)
      Except.ok fun x => psi x / norm

/-- `Schrodinger1D.evolve_state(initial_state, t_max, n_steps)`: build the
time points with `np.linspace(0, t_max, n_steps)` and delegate to
`time_evolution` on the facade Hamiltonian; the cached eigenpairs are not
consulted. -/
noncomputable def Schrodinger1D.evolve_state {n : ℕ} (s : Schrodinger1D n)
    (initial_state : Fin n → ℂ) (t_max : ℝ) (n_steps : ℕ) :
    Except String (List ℝ × List (Fin n → ℂ)) :=
  let times := linspace t_max n_steps
  (time_evolution n s.oracle initial_state times s.hbar).map fun states => (times, states)

/-- Row-major flattening bound: entry `(p, q)` of a `ny x nx` grid is flat
index `p * nx + q`. -/
theorem flatten_lt {nx ny : ℕ} (p : Fin ny) (q : Fin nx) :
    p.val * nx + q.val < ny * nx := by
  have h1 : p.val * nx + q.val < (p.val + 1) * nx := by
    have := q.isLt
    calc p.val * nx + q.val < p.val * nx + nx := by omega
    _ = (p.val + 1) * nx := by ring
  have h2 : (p.val + 1) * nx ≤ ny * nx :=
    Nat.mul_le_mul_right nx (by have := p.isLt; omega)
  omega

/-- `psi_flat.reshape(ny, nx)` for a flattened (row-major) vector. -/
def reshape2 (nx ny : ℕ) (v : Fin (ny * nx) → ℝ) : Fin ny × Fin nx → ℝ :=
  fun pq => v ⟨pq.1.val * nx + pq.2.val, flatten_lt pq.1 pq.2⟩

/-- State of a `Schrodinger2D` facade relevant to the claims (see
`Schrodinger1D` for the conventions; the flattened dimension is `ny * nx`). -/
structure Schrodinger2D (nx ny : ℕ) where
  dx : ℝ
  dy : ℝ
  hbar : ℝ
  oracle : EigshOracle (ny * nx)
  cached : Option ((k : ℕ) × EigshResult (ny * nx) k)

/-- Construction of the 2D facade: eigenpairs start unset. -/
def Schrodinger2D.init (nx ny : ℕ) (dx dy hbar : ℝ)
    (oracle : EigshOracle (ny * nx)) : Schrodinger2D nx ny :=
  { dx := dx, dy := dy, hbar := hbar, oracle := oracle, cached := none }

/-- `Schrodinger2D.solve(n_eigenstates, which)`. -/
noncomputable def Schrodinger2D.solve {nx ny : ℕ} (s : Schrodinger2D nx ny)
    (n_eigenstates : ℕ) (which : String) :
    Except String (Schrodinger2D nx ny × (Fin n_eigenstates → ℝ) ×
      (Fin (ny * nx) → Fin n_eigenstates → ℝ)) :=
  (solve_schrodinger (ny * nx) s.oracle n_eigenstates which).map fun r =>
    ({ s with cached := some ⟨n_eigenstates, r⟩ }, r.eigenvalues, r.eigenvectors)

/-- `Schrodinger2D.get_eigenfunction(n)`: same guards as in 1D; the flattened
eigenvector is reshaped to `(ny, nx)` and divided by
`sqrt(np.sum(np.abs(psi_2d)**2) * dx * dy)`. -/
noncomputable def Schrodinger2D.get_eigenfunction {nx ny : ℕ}
    (s : Schrodinger2D nx ny) (idx : ℤ) : Except FacadeError (Fin ny × Fin nx → ℝ) :=
  match s.cached with
  | none => Except.error FacadeError.invalidState
  | some kr =>
    if h : idx < 0 ∨ (kr.1 : ℤ) ≤ idx then Except.error FacadeError.indexOutOfRange
    else
      let m : Fin kr.1 := ⟨idx.toNat, by omega⟩
      let psi2 : Fin ny × Fin nx → ℝ := reshape2 nx ny fun x => kr.2.eigenvectors x m
      let norm := Real.sqrt ((∑ pq : Fin ny × Fin nx, |psi2 pq| ^ 2) * s.dx * s.dy)
      Except.ok fun pq => psi2 pq / norm

/-- All-zero eigsh outcome, a concrete instance for witnesses. -/
def zeroR (N k : ℕ) : EigshResult N k :=
  { eigenvalues := fun _ => 0, eigenvectors := fun _ _ => 0 }

/-- Eigsh outcome with all-one eigenvectors, a concrete instance for
witnesses. -/
def onesR (N k : ℕ) : EigshResult N k :=
  { eigenvalues := fun _ => 0, eigenvectors := fun _ _ => 1 }

/-- Oracle that always converges to the all-zero outcome. -/
def oracleZero (N : ℕ) : EigshOracle N := fun _ k => Except.ok (zeroR N k)

/-- Cached eigenvalues of the counterexample facade. -/
def cachedVals : Fin 1 → ℝ := fun _ => 0

/-- Cached eigenvector (the first basis vector) of the counterexample
facade. -/
def cachedVecs : Fin 21 → Fin 1 → ℝ := fun x _ => if x.val = 0 then 1 else 0

/-- Initial state used against the counterexample facade. -/
def psi0_ce : Fin 21 → ℂ := fun x => if x.val = 0 then 1 else 0

/-- A 21-point facade that already holds cached eigenpairs different from
what its Hamiltonian oracle produces. -/
noncomputable def s_ce : Schrodinger1D 21 :=
  { x_grid := fun _ => 0, hbar := 1, oracle := oracleZero 21
    cached := some ⟨1, { eigenvalues := cachedVals, eigenvectors := cachedVecs }⟩ }

/-- Two-point solved facade whose single cached eigenvector is constant 1,
on the grid 0, 1. -/
noncomputable def s7 : Schrodinger1D 2 :=
  { x_grid := fun i => (i.val : ℝ), hbar := 1, oracle := oracleZero 2
    cached := some ⟨1, onesR 2 1⟩ }

/-- One-by-one solved 2D facade with unit grid steps and a constant cached
eigenvector. -/
noncomputable def s7b : Schrodinger2D 1 1 :=
  { dx := 1, dy := 1, hbar := 1, oracle := oracleZero 1
    cached := some ⟨1, onesR 1 1⟩ }

/-- Fresh two-point 1D facade (no solve yet). -/
noncomputable def s8 : Schrodinger1D 2 :=
  Schrodinger1D.init 2 (fun i => (i.val : ℝ)) 1 (oracleZero 2)

/-- The facade `s8` after a successful one-state solve. -/
noncomputable def s8solved : Schrodinger1D 2 :=
  { s8 with cached := some ⟨1, sortResult (zeroR 2 1)⟩ }

/-- Fresh two-by-one 2D facade (no solve yet; flattened dimension 2, so a
one-state partial solve is admissible). -/
noncomputable def s8b : Schrodinger2D 2 1 :=
  Schrodinger2D.init 2 1 1 1 1 (oracleZero 2)

/-- The facade `s8b` after a successful one-state solve. -/
noncomputable def s8bsolved : Schrodinger2D 2 1 :=
  { s8b with cached := some ⟨1, sortResult (zeroR 2 1)⟩ }

theorem exceptMap_eq_ok {ε α β : Type _} (f : α → β) (e : Except ε α) (b : β)
    (h : e.map f = Except.ok b) : ∃ a, e = Except.ok a ∧ f a = b := by
  cases e with
  | error err => simp [Except.map] at h
  | ok a => exact ⟨a, rfl, by simpa [Except.map] using h⟩

theorem periodicBase_apply (n : ℕ) (i j : Fin n) :
    periodicBase n i j =
      if (i.val = 0 ∧ j.val = n - 1) ∨ (i.val = n - 1 ∧ j.val = 0) then 1
      else tridiag n i j := by
  unfold periodicBase setEntry
  simp only [Matrix.of_apply]
  split_ifs <;> tauto

/-- C3: `construct_hamiltonian` returns exactly
`-0.5·(hbar²/mass)·L + diag(V)`, and when the Laplacian is symmetric (its
entries and the potential being real by construction) the Hamiltonian is
symmetric. -/
theorem hamiltonian_formula_and_symm (N : ℕ) (L : Matrix (Fin N) (Fin N) ℚ)
    (V : Fin N → ℚ) (hbar mass : ℚ) :
    construct_hamiltonian N L V hbar mass =
      (-(1 / 2) * (hbar ^ 2 / mass)) • L + Matrix.diagonal V ∧
    (L.IsSymm → (construct_hamiltonian N L V hbar mass).IsSymm) := by
  constructor
  · ext i j
    simp [construct_hamiltonian, Matrix.add_apply, Matrix.smul_apply,
      Matrix.diagonal_apply, Matrix.of_apply, smul_eq_mul]
  · intro hL
    unfold Matrix.IsSymm
    ext i j
    simp only [Matrix.transpose_apply, construct_hamiltonian, Matrix.add_apply,
      Matrix.of_apply]
    rw [show L j i = L i j from hL.apply i j]
    congr 1
    by_cases hij : i = j
    · subst hij; rfl
    · rw [if_neg hij, if_neg (fun h => hij h.symm)]

theorem hamiltonian_formula_and_symm_witness :
    (construct_hamiltonian 2 (tridiag 2) (fun _ => 1) 1 1).IsSymm :=
  (hamiltonian_formula_and_symm 2 (tridiag 2) (fun _ => 1) 1 1).2 (by decide)

/-- C10: on a Hamiltonian of dimension at most 20, `time_evolution` always
fails: the unconditional internal solve requests `min(20, N) = N` states,
which the partial eigensolver rejects. -/
theorem time_evolution_small_grid_fails (N : ℕ) (oracle : EigshOracle N)
    (initial_state : Fin N → ℂ) (time_points : List ℝ) (hbar : ℝ)
    (hN : N ≤ 20) :
    time_evolution N oracle initial_state time_points hbar =
      Except.error eigshDimMessage := by
  unfold time_evolution solve_schrodinger eigsh
  rw [if_neg (by omega : ¬ min 20 N < N)]
  rfl

theorem time_evolution_small_grid_fails_witness :
    time_evolution 1 (oracleZero 1) (fun _ => 0) [] 1 =
      Except.error eigshDimMessage :=
  time_evolution_small_grid_fails 1 (oracleZero 1) (fun _ => 0) [] 1 (by norm_num)

/-- C9: whenever the underlying partial eigensolve succeeds,
`solve_schrodinger` returns the eigenvalues in non-decreasing order, with the
eigenvector columns permuted by the same permutation, so the i-th returned
column belongs to the i-th returned eigenvalue. -/
theorem solve_schrodinger_sorted (N : ℕ) (oracle : EigshOracle N) (k : ℕ)
    (which : String) (raw out : EigshResult N k)
    (hraw : eigsh N oracle k which = Except.ok raw)
    (hout : solve_schrodinger N oracle k which = Except.ok out) :
    Monotone out.eigenvalues ∧
      ∃ σ : Equiv.Perm (Fin k),
        (∀ i, out.eigenvalues i = raw.eigenvalues (σ i)) ∧
        (∀ x i, out.eigenvectors x i = raw.eigenvectors x (σ i)) := by
  unfold solve_schrodinger at hout
  rw [hraw] at hout
  simp only [Except.map, Except.ok.injEq] at hout
  subst hout
  refine ⟨?_, Tuple.sort raw.eigenvalues, fun i => rfl, fun x i => rfl⟩
  exact Tuple.monotone_sort raw.eigenvalues

theorem solve_schrodinger_sorted_witness :
    Monotone (sortResult (zeroR 2 1)).eigenvalues ∧
      ∃ σ : Equiv.Perm (Fin 1),
        (∀ i, (sortResult (zeroR 2 1)).eigenvalues i = (zeroR 2 1).eigenvalues (σ i)) ∧
        (∀ x i, (sortResult (zeroR 2 1)).eigenvectors x i = (zeroR 2 1).eigenvectors x (σ i)) :=
  solve_schrodinger_sorted 2 (oracleZero 2) 1 "SM" (zeroR 2 1)
    (sortResult (zeroR 2 1)) rfl rfl

/-- C4: for admissible parameters, `construct_laplacian_2d` returns the
Kronecker sum `I_ny ⊗ L1d_x + L1d_y ⊗ I_nx` of the two (already scaled) 1D
Laplacians; entrywise, block `(p, r)` carries `L1d_x` on the block diagonal
and the identity pattern carries `L1d_y`. -/
theorem laplacian_2d_kron_sum (nx ny : ℕ) (dx dy : ℚ) (bc : String)
    (hnx : 2 ≤ nx) (hny : 2 ≤ ny) (hdx : 0 < dx) (hdy : 0 < dy)
    (Lx : Matrix (Fin nx) (Fin nx) ℚ) (Ly : Matrix (Fin ny) (Fin ny) ℚ)
    (hx : construct_laplacian_1d nx dx bc = some Lx)
    (hy : construct_laplacian_1d ny dy bc = some Ly) :
    construct_laplacian_2d nx ny dx dy bc = some (spkron 1 Lx + spkron Ly 1) ∧
    ∀ M, construct_laplacian_2d nx ny dx dy bc = some M →
      ∀ p q r t, M (p, q) (r, t) =
        (if p = r then Lx q t else 0) + (if q = t then Ly p r else 0) := by
  have hbc : validBoundary bc = true := by
    by_contra h
    simp [construct_laplacian_1d, h] at hx
  have h2d : construct_laplacian_2d nx ny dx dy bc = some (spkron 1 Lx + spkron Ly 1) := by
    simp [construct_laplacian_2d, hbc, hx, hy, Option.bind]
  refine ⟨h2d, fun M hM p q r t => ?_⟩
  rw [h2d, Option.some.injEq] at hM
  subst hM
  simp only [spkron, Matrix.add_apply, Matrix.of_apply, Matrix.one_apply]
  split_ifs <;> ring

theorem laplacian_2d_kron_sum_witness :
    construct_laplacian_2d 2 2 1 1 "dirichlet" =
      some (spkron 1 ((-1 / (1 : ℚ) ^ 2) • tridiag 2) +
            spkron ((-1 / (1 : ℚ) ^ 2) • tridiag 2) 1) :=
  (laplacian_2d_kron_sum 2 2 1 1 "dirichlet" (by norm_num) (by norm_num)
    (by norm_num) (by norm_num) ((-1 / (1 : ℚ) ^ 2) • tridiag 2)
    ((-1 / (1 : ℚ) ^ 2) • tridiag 2) rfl rfl).1

/-- C6 counterexample: the claim says any `dx ≤ 0` is rejected with an
InvalidArgument condition, but the code never inspects `dx`; the
construction at `dx = -1` succeeds. -/
theorem laplacian_1d_accepts_nonpositive_dx :
    (construct_laplacian_1d 5 (-1) "dirichlet").isSome = true := rfl

/-- C6 amended: for `n ≥ 2`, `construct_laplacian_1d` fails exactly when the
boundary string is invalid (the explicit `ValueError`) or `dx = 0` (the
incidental `ZeroDivisionError` in the scaling); there is no validation of
`n` or of the sign of `dx`, so every `dx ≠ 0`, negative values included, is
accepted. -/
theorem laplacian_1d_failure_iff (n : ℕ) (dx : ℚ) (bc : String) (hn : 2 ≤ n) :
    (construct_laplacian_1d n dx bc).isSome = true ↔
      (validBoundary bc = true ∧ dx ≠ 0) := by
  unfold construct_laplacian_1d
  by_cases h : validBoundary bc = true
  · by_cases hdx : dx = 0
    · simp [h, hdx, show n ≠ 0 by omega]
    · simp [h, hdx, show n ≠ 0 by omega]
  · simp [h]

theorem laplacian_1d_failure_iff_witness :
    (construct_laplacian_1d 2 1 "dirichlet").isSome = true :=
  (laplacian_1d_failure_iff 2 1 "dirichlet" (by norm_num)).mpr
    ⟨by decide, by norm_num⟩

/-- C1 counterexample: the claim quantifies over every `n_points` and every
`dx`, but at `n_points = 0` the construction raises (`np.ones(-1)`), and at
`dx = 0` the scaling division raises `ZeroDivisionError`, so at those points
no matrix is returned at all. -/
theorem laplacian_1d_fails_n0_dx0 :
    construct_laplacian_1d 0 1 "dirichlet" = none ∧
    construct_laplacian_1d 3 0 "dirichlet" = none :=
  ⟨rfl, rfl⟩

/-- C1 amended: for every point count `n ≥ 1` and every step `dx ≠ 0`, the
constructed 1D Laplacian is the matrix with `-2` on the diagonal, `+1` on the
first super- and sub-diagonals, the corner entries `(0, n-1)` and `(n-1, 0)`
set to `+1` when the boundary is periodic, all multiplied by `-1/dx²`. -/
theorem laplacian_1d_matches_spec (n : ℕ) (dx : ℚ) (bc : String)
    (hn : 1 ≤ n) (hdx : dx ≠ 0) (hbc : validBoundary bc = true) :
    construct_laplacian_1d n dx bc =
      some (laplacian_1d_claim n dx (pyLower bc == "periodic")) := by
  have hn0 : n ≠ 0 := by omega
  unfold construct_laplacian_1d
  rw [if_pos hbc, if_neg hn0, if_neg hdx]
  by_cases hp : (pyLower bc == "periodic") = true
  · rw [if_pos hp, hp, Option.some.injEq]
    ext i j
    rw [Matrix.smul_apply, periodicBase_apply]
    simp [laplacian_1d_claim, tridiag]
  · rw [if_neg hp, Bool.not_eq_true] at *
    rw [hp, Option.some.injEq]
    ext i j
    rw [Matrix.smul_apply]
    simp [laplacian_1d_claim, tridiag]

theorem laplacian_1d_matches_spec_witness :
    construct_laplacian_1d 4 1 "periodic" =
      some (laplacian_1d_claim 4 1 (pyLower "periodic" == "periodic")) :=
  laplacian_1d_matches_spec 4 1 "periodic" (by norm_num) (by norm_num) (by decide)


theorem sum_indicator_val (n m : ℕ) :
    (∑ j : Fin n, if j.val = m then (1 : ℚ) else 0) = if m < n then 1 else 0 := by
  by_cases h : m < n
  · rw [if_pos h]
    have he : ∀ j : Fin n, (if j.val = m then (1 : ℚ) else 0) =
        if j = ⟨m, h⟩ then 1 else 0 := by
      intro j
      by_cases hj : j = ⟨m, h⟩
      · subst hj; simp
      · rw [if_neg hj, if_neg (fun hv => hj (Fin.ext hv))]
    simp_rw [he]
    simp
  · rw [if_neg h]
    apply Finset.sum_eq_zero
    intro j _
    rw [if_neg]
    have := j.isLt
    omega

theorem tridiag_row_sum (n : ℕ) (i : Fin n) :
    (∑ j, tridiag n i j) =
      -2 + (if i.val + 1 < n then 1 else 0) + (if 0 < i.val then 1 else 0) := by
  have hdec : ∀ j : Fin n, tridiag n i j =
      -2 * (if j.val = i.val then (1 : ℚ) else 0) +
        (if j.val = i.val + 1 then 1 else 0) + (if j.val + 1 = i.val then 1 else 0) := by
    intro j
    unfold tridiag
    simp only [Matrix.of_apply, Fin.ext_iff]
    split_ifs <;> first | (exfalso; omega) | norm_num
  have h3 : (∑ j : Fin n, if j.val + 1 = i.val then (1 : ℚ) else 0) =
      if 0 < i.val then 1 else 0 := by
    by_cases h : 0 < i.val
    · have he : ∀ j : Fin n, (if j.val + 1 = i.val then (1 : ℚ) else 0) =
          if j.val = i.val - 1 then 1 else 0 := fun j => if_congr (by omega) rfl rfl
      simp_rw [he]
      rw [sum_indicator_val, if_pos (by have := i.isLt; omega), if_pos h]
    · rw [if_neg h]
      apply Finset.sum_eq_zero
      intro j _
      rw [if_neg]
      omega
  simp_rw [hdec]
  rw [Finset.sum_add_distrib, Finset.sum_add_distrib, ← Finset.mul_sum,
    sum_indicator_val, if_pos i.isLt, sum_indicator_val, h3]
  ring

theorem periodicBase_row_sum (n : ℕ) (hn : 3 ≤ n) (i : Fin n) :
    (∑ j, periodicBase n i j) = 0 := by
  have hdec : ∀ j : Fin n, periodicBase n i j =
      tridiag n i j + ((if i.val = 0 ∧ j.val = n - 1 then (1 : ℚ) else 0) +
        (if i.val = n - 1 ∧ j.val = 0 then 1 else 0)) := by
    intro j
    rw [periodicBase_apply]
    by_cases hc : (i.val = 0 ∧ j.val = n - 1) ∨ (i.val = n - 1 ∧ j.val = 0)
    · rw [if_pos hc]
      have ht : tridiag n i j = 0 := by
        unfold tridiag
        simp only [Matrix.of_apply, Fin.ext_iff]
        rcases hc with ⟨h1, h2⟩ | ⟨h1, h2⟩ <;> rw [if_neg (by omega), if_neg (by omega)]
      rcases hc with ⟨h1, h2⟩ | ⟨h1, h2⟩
      · rw [ht, if_pos ⟨h1, h2⟩, if_neg (by omega)]
        norm_num
      · rw [ht, if_neg (by omega), if_pos ⟨h1, h2⟩]
        norm_num
    · rw [if_neg hc, if_neg (fun h => hc (Or.inl h)), if_neg (fun h => hc (Or.inr h))]
      ring
  have hc1 : (∑ j : Fin n, if i.val = 0 ∧ j.val = n - 1 then (1 : ℚ) else 0) =
      if i.val = 0 then 1 else 0 := by
    by_cases h : i.val = 0
    · have he : ∀ j : Fin n, (if i.val = 0 ∧ j.val = n - 1 then (1 : ℚ) else 0) =
          if j.val = n - 1 then 1 else 0 := fun j => if_congr (and_iff_right h) rfl rfl
      simp_rw [he]
      rw [sum_indicator_val, if_pos (by omega), if_pos h]
    · rw [if_neg h]
      apply Finset.sum_eq_zero
      intro j _
      rw [if_neg (fun hh => h hh.1)]
  have hc2 : (∑ j : Fin n, if i.val = n - 1 ∧ j.val = 0 then (1 : ℚ) else 0) =
      if i.val = n - 1 then 1 else 0 := by
    by_cases h : i.val = n - 1
    · have he : ∀ j : Fin n, (if i.val = n - 1 ∧ j.val = 0 then (1 : ℚ) else 0) =
          if j.val = 0 then 1 else 0 := fun j => if_congr (and_iff_right h) rfl rfl
      simp_rw [he]
      rw [sum_indicator_val, if_pos (by omega), if_pos h]
    · rw [if_neg h]
      apply Finset.sum_eq_zero
      intro j _
      rw [if_neg (fun hh => h hh.1)]
  simp_rw [hdec]
  rw [Finset.sum_add_distrib, Finset.sum_add_distrib, tridiag_row_sum, hc1, hc2]
  have hi := i.isLt
  split_ifs <;> first | (exfalso; omega) | norm_num

/-- C5 counterexample: at `n_points = 2` (with `dx = 1 > 0`) the periodic
corner assignment lands on the already-present off-diagonal entry instead of
accumulating, so the first row of the returned matrix sums to 1, not 0. -/
theorem periodic_rowsum_fails_n2 :
    (construct_laplacian_1d 2 1 "periodic").map (fun L => ∑ j, L 0 j) ≠ some 0 := by
  have h : construct_laplacian_1d 2 1 "periodic" =
      some ((-1 / (1 : ℚ) ^ 2) • periodicBase 2) := rfl
  rw [h, Option.map_some']
  intro hc
  rw [Option.some.injEq] at hc
  have h2 : (∑ j, ((-1 / (1 : ℚ) ^ 2) • periodicBase 2) 0 j) = 1 := by
    rw [Fin.sum_univ_two]
    simp only [Matrix.smul_apply, smul_eq_mul]
    rw [periodicBase_apply, periodicBase_apply]
    norm_num [tridiag]
  rw [h2] at hc
  norm_num at hc

/-- C5 amended: for every `n_points ≥ 3` and every `dx`, each row of the
returned periodic 1D Laplacian sums to 0 (equivalently, each row of the
matrix before the `-1/dx²` scaling sums to 0). -/
theorem periodic_rowsum_zero (n : ℕ) (dx : ℚ) (hn : 3 ≤ n)
    (L : Matrix (Fin n) (Fin n) ℚ)
    (hL : construct_laplacian_1d n dx "periodic" = some L) (i : Fin n) :
    (∑ j, L i j) = 0 := by
  unfold construct_laplacian_1d at hL
  rw [if_pos (by decide : validBoundary "periodic" = true),
    if_neg (show ¬n = 0 by omega)] at hL
  by_cases hdx : dx = 0
  · rw [if_pos hdx] at hL
    exact absurd hL (by simp)
  · rw [if_neg hdx,
      if_pos (by decide : (pyLower "periodic" == "periodic") = true)] at hL
    rw [Option.some.injEq] at hL
    subst hL
    have hsum : (∑ j, ((-1 / dx ^ 2) • periodicBase n) i j) =
        (-1 / dx ^ 2) * ∑ j, periodicBase n i j := by
      rw [Finset.mul_sum]
      apply Finset.sum_congr rfl
      intro j _
      rw [Matrix.smul_apply, smul_eq_mul]
    rw [hsum, periodicBase_row_sum n hn i, mul_zero]

theorem periodic_rowsum_zero_witness :
    (∑ j, ((-1 / (1 : ℚ) ^ 2) • periodicBase 3) 0 j) = 0 :=
  periodic_rowsum_zero 3 1 (by norm_num) ((-1 / (1 : ℚ) ^ 2) • periodicBase 3) rfl 0

theorem sortResult_zeroR (N k : ℕ) : sortResult (zeroR N k) = zeroR N k := rfl

theorem spectral_state_ce (t : ℝ) :
    spectral_state cachedVals cachedVecs psi0_ce 1 t 0 = 1 := by
  unfold spectral_state
  rw [Fin.sum_univ_one]
  have hinner : ∀ y : Fin 21,
      (starRingEnd ℂ) ((cachedVecs y 0 : ℝ) : ℂ) * psi0_ce y =
        if y = 0 then (1 : ℂ) else 0 := by
    intro y
    unfold cachedVecs psi0_ce
    by_cases hy : y.val = 0
    · rw [if_pos hy, if_pos hy, if_pos (Fin.ext hy)]
      simp
    · rw [if_neg hy, if_neg hy, if_neg (fun hv => hy (Fin.val_eq_of_eq hv))]
      simp
  simp_rw [hinner]
  rw [Finset.sum_ite_eq' Finset.univ (0 : Fin 21) (fun _ => (1 : ℂ))]
  rw [if_pos (Finset.mem_univ _)]
  unfold cachedVals cachedVecs
  norm_num [Complex.exp_zero]

/-- C2 counterexample: the facade `s_ce` holds cached eigenpairs, yet
`evolve_state` does not produce the states the claim prescribes from those
cached eigenpairs: the code re-solves internally and ignores the cache. -/
theorem time_evolution_ignores_cache_ce :
    s_ce.cached.isSome = true ∧
    Schrodinger1D.evolve_state s_ce psi0_ce 0 1 ≠
      Except.ok (linspace 0 1, (linspace 0 1).map fun t =>
        spectral_state cachedVals cachedVecs psi0_ce 1 t) := by
  refine ⟨rfl, ?_⟩
  intro h
  have h1 : time_evolution 21 s_ce.oracle psi0_ce (linspace 0 1) s_ce.hbar =
      Except.ok ((linspace 0 1).map fun _ => fun _ : Fin 21 => (0 : ℂ)) := by
    unfold time_evolution solve_schrodinger eigsh
    have ho : s_ce.oracle = oracleZero 21 := rfl
    rw [ho, if_pos (by omega : min 20 21 < 21)]
    simp only [oracleZero, Except.map]
    congr 1
    apply List.map_congr_left
    intro t _
    funext x
    simp only [sortResult_zeroR]
    simp [zeroR]
  have hact : Schrodinger1D.evolve_state s_ce psi0_ce 0 1 =
      Except.ok (linspace 0 1, (linspace 0 1).map fun _ => fun _ : Fin 21 => (0 : ℂ)) := by
    show Except.map (fun states => (linspace 0 1, states))
        (time_evolution 21 s_ce.oracle psi0_ce (linspace 0 1) s_ce.hbar) = _
    rw [h1]
    rfl
  rw [hact, Except.ok.injEq, Prod.mk.injEq] at h
  have hl : linspace 0 1 = [(0 : ℝ)] := by
    simp [linspace]
  have hstates := h.2
  rw [hl, List.map_cons, List.map_nil, List.map_cons, List.map_nil,
    List.cons.injEq] at hstates
  have hfun := congrFun hstates.1 0
  rw [spectral_state_ce] at hfun
  exact zero_ne_one hfun

/-- C2 amended: `time_evolution` always performs an internal partial solve
for `min(20, N)` eigenstates (any cached eigenpairs are never consulted),
and returns one state per time point, the state at time `t` being
`Σ_k c_k · exp(-i·E_k·t/ħ) · φ_k` with `c_k = ⟨φ_k | ψ0⟩` over the
internally solved (sorted) eigenpairs. -/
theorem time_evolution_internal_solve_spec (N : ℕ) (oracle : EigshOracle N)
    (psi0 : Fin N → ℂ) (time_points : List ℝ) (hbar : ℝ)
    (raw : EigshResult N (min 20 N))
    (hraw : eigsh N oracle (min 20 N) "SM" = Except.ok raw) :
    time_evolution N oracle psi0 time_points hbar =
      Except.ok (time_points.map fun t =>
        spectral_state (sortResult raw).eigenvalues (sortResult raw).eigenvectors
          psi0 hbar t) := by
  unfold time_evolution solve_schrodinger
  rw [hraw]
  simp only [Except.map]
  congr 1
  apply List.map_congr_left
  intro t _
  funext x
  unfold spectral_state
  apply Finset.sum_congr rfl
  intro k _
  ring

theorem time_evolution_internal_solve_spec_witness :
    time_evolution 21 (oracleZero 21) psi0_ce [] 1 =
      Except.ok (([] : List ℝ).map fun t =>
        spectral_state (sortResult (zeroR 21 (min 20 21))).eigenvalues
          (sortResult (zeroR 21 (min 20 21))).eigenvectors psi0_ce 1 t) :=
  time_evolution_internal_solve_spec 21 (oracleZero 21) psi0_ce [] 1
    (zeroR 21 (min 20 21)) rfl

/-- C8: `get_eigenfunction` fails with InvalidState before any solve, fails
with IndexOutOfRange for an index outside `[0, k)` where `k` is the number
of solved states, and returns a state for every index in `[0, k)` after a
successful solve — in both the 1D and the 2D facade. -/
theorem eigenfunction_guards :
    (∀ (n : ℕ) (x_grid : Fin n → ℝ) (hbar : ℝ) (oracle : EigshOracle n) (idx : ℤ),
       (Schrodinger1D.init n x_grid hbar oracle).get_eigenfunction idx =
         Except.error FacadeError.invalidState) ∧
    (∀ (n : ℕ) (s : Schrodinger1D n) (kr : (k : ℕ) × EigshResult n k) (idx : ℤ),
       s.cached = some kr → (idx < 0 ∨ (kr.1 : ℤ) ≤ idx) →
       s.get_eigenfunction idx = Except.error FacadeError.indexOutOfRange) ∧
    (∀ (n k : ℕ) (s s' : Schrodinger1D n) (which : String)
       (vals : Fin k → ℝ) (vecs : Fin n → Fin k → ℝ) (idx : ℤ),
       s.solve k which = Except.ok (s', vals, vecs) → 0 ≤ idx → idx < (k : ℤ) →
       ∃ psi, s'.get_eigenfunction idx = Except.ok psi) ∧
    (∀ (nx ny : ℕ) (dx dy hbar : ℝ) (oracle : EigshOracle (ny * nx)) (idx : ℤ),
       (Schrodinger2D.init nx ny dx dy hbar oracle).get_eigenfunction idx =
         Except.error FacadeError.invalidState) ∧
    (∀ (nx ny : ℕ) (s : Schrodinger2D nx ny) (kr : (k : ℕ) × EigshResult (ny * nx) k)
       (idx : ℤ),
       s.cached = some kr → (idx < 0 ∨ (kr.1 : ℤ) ≤ idx) →
       s.get_eigenfunction idx = Except.error FacadeError.indexOutOfRange) ∧
    (∀ (nx ny k : ℕ) (s s' : Schrodinger2D nx ny) (which : String)
       (vals : Fin k → ℝ) (vecs : Fin (ny * nx) → Fin k → ℝ) (idx : ℤ),
       s.solve k which = Except.ok (s', vals, vecs) → 0 ≤ idx → idx < (k : ℤ) →
       ∃ psi, s'.get_eigenfunction idx = Except.ok psi) := by
  refine ⟨?_, ?_, ?_, ?_, ?_, ?_⟩
  · intro n x_grid hbar oracle idx
    rfl
  · intro n s kr idx hc hout
    unfold Schrodinger1D.get_eigenfunction
    rw [hc]
    exact dif_pos hout
  · intro n k s s' which vals vecs idx hsolve h0 hk
    unfold Schrodinger1D.solve at hsolve
    obtain ⟨r, hr, hmap⟩ := exceptMap_eq_ok _ _ _ hsolve
    have hc : s'.cached = some ⟨k, r⟩ := by
      have := congrArg Prod.fst hmap
      simp only at this
      rw [← this]
    unfold Schrodinger1D.get_eigenfunction
    rw [hc]
    exact ⟨_, dif_neg (by show ¬(idx < 0 ∨ (k : ℤ) ≤ idx); omega)⟩
  · intro nx ny dx dy hbar oracle idx
    rfl
  · intro nx ny s kr idx hc hout
    unfold Schrodinger2D.get_eigenfunction
    rw [hc]
    exact dif_pos hout
  · intro nx ny k s s' which vals vecs idx hsolve h0 hk
    unfold Schrodinger2D.solve at hsolve
    obtain ⟨r, hr, hmap⟩ := exceptMap_eq_ok _ _ _ hsolve
    have hc : s'.cached = some ⟨k, r⟩ := by
      have := congrArg Prod.fst hmap
      simp only at this
      rw [← this]
    unfold Schrodinger2D.get_eigenfunction
    rw [hc]
    exact ⟨_, dif_neg (by show ¬(idx < 0 ∨ (k : ℤ) ≤ idx); omega)⟩

theorem eigenfunction_guards_witness :
    (Schrodinger1D.init 2 (fun i => (i.val : ℝ)) 1 (oracleZero 2)).get_eigenfunction 0 =
      Except.error FacadeError.invalidState ∧
    s7.get_eigenfunction (-1) = Except.error FacadeError.indexOutOfRange ∧
    (∃ psi, s8solved.get_eigenfunction 0 = Except.ok psi) ∧
    (Schrodinger2D.init 2 1 1 1 1 (oracleZero 2)).get_eigenfunction 0 =
      Except.error FacadeError.invalidState ∧
    s7b.get_eigenfunction 5 = Except.error FacadeError.indexOutOfRange ∧
    (∃ psi, s8bsolved.get_eigenfunction 0 = Except.ok psi) := by
  refine ⟨?_, ?_, ?_, ?_, ?_, ?_⟩
  · exact eigenfunction_guards.1 2 (fun i => (i.val : ℝ)) 1 (oracleZero 2) 0
  · exact eigenfunction_guards.2.1 2 s7 ⟨1, onesR 2 1⟩ (-1) rfl (by norm_num)
  · exact eigenfunction_guards.2.2.1 2 1 s8 s8solved "SM"
      (sortResult (zeroR 2 1)).eigenvalues (sortResult (zeroR 2 1)).eigenvectors 0
      rfl (by norm_num) (by norm_num)
  · exact eigenfunction_guards.2.2.2.1 2 1 1 1 1 (oracleZero 2) 0
  · exact eigenfunction_guards.2.2.2.2.1 1 1 s7b ⟨1, onesR 1 1⟩ 5 rfl (by norm_num)
  · exact eigenfunction_guards.2.2.2.2.2 2 1 1 s8b s8bsolved "SM"
      (sortResult (zeroR 2 1)).eigenvalues (sortResult (zeroR 2 1)).eigenvectors 0
      rfl (by norm_num) (by norm_num)

theorem fin_mk_toNat {k : ℕ} (m : Fin k) (pf : ((m.val : ℤ)).toNat < k) :
    (⟨((m.val : ℤ)).toNat, pf⟩ : Fin k) = m := by
  apply Fin.ext
  simp

theorem get_eigenfunction_ok {n k : ℕ} (s : Schrodinger1D n)
    (r : EigshResult n k) (m : Fin k) (hc : s.cached = some ⟨k, r⟩) :
    s.get_eigenfunction (m.val : ℤ) =
      Except.ok (fun x => r.eigenvectors x m /
        Real.sqrt (trapz n (fun y => |r.eigenvectors y m| ^ 2) s.x_grid)) := by
  unfold Schrodinger1D.get_eigenfunction
  rw [hc]
  have hcond : ¬(((m.val : ℤ)) < 0 ∨ ((k : ℤ)) ≤ (m.val : ℤ)) := by
    have := m.isLt
    omega
  refine (dif_neg hcond).trans ?_
  simp only [fin_mk_toNat]

theorem get_eigenfunction2_ok {nx ny k : ℕ} (s : Schrodinger2D nx ny)
    (r : EigshResult (ny * nx) k) (m : Fin k) (hc : s.cached = some ⟨k, r⟩) :
    s.get_eigenfunction (m.val : ℤ) =
      Except.ok (fun pq => reshape2 nx ny (fun x => r.eigenvectors x m) pq /
        Real.sqrt ((∑ pq : Fin ny × Fin nx,
          |reshape2 nx ny (fun x => r.eigenvectors x m) pq| ^ 2) * s.dx * s.dy)) := by
  unfold Schrodinger2D.get_eigenfunction
  rw [hc]
  have hcond : ¬(((m.val : ℤ)) < 0 ∨ ((k : ℤ)) ≤ (m.val : ℤ)) := by
    have := m.isLt
    omega
  refine (dif_neg hcond).trans ?_
  simp only [fin_mk_toNat]

theorem trapz_congr (n : ℕ) (y y' x : Fin n → ℝ) (h : ∀ i, y i = y' i) :
    trapz n y x = trapz n y' x := by
  unfold trapz
  apply Finset.sum_congr rfl
  intro i _
  rw [h, h]

theorem trapz_div_const (n : ℕ) (y x : Fin n → ℝ) (c : ℝ) :
    trapz n (fun i => y i / c) x = trapz n y x / c := by
  unfold trapz
  rw [Finset.sum_div]
  apply Finset.sum_congr rfl
  intro i _
  rw [div_add_div_same]
  ring

theorem normalized_1d {n : ℕ} (f g : Fin n → ℝ)
    (hpos : 0 < trapz n (fun x => |f x| ^ 2) g) :
    trapz n (fun x => |f x / Real.sqrt (trapz n (fun y => |f y| ^ 2) g)| ^ 2) g = 1 := by
  have hs : Real.sqrt (trapz n (fun y => |f y| ^ 2) g) ^ 2 =
      trapz n (fun y => |f y| ^ 2) g := Real.sq_sqrt (le_of_lt hpos)
  have hcongr : ∀ x : Fin n,
      |f x / Real.sqrt (trapz n (fun y => |f y| ^ 2) g)| ^ 2 =
        |f x| ^ 2 / trapz n (fun y => |f y| ^ 2) g := by
    intro x
    rw [abs_div, div_pow, abs_of_nonneg (Real.sqrt_nonneg _), hs]
  rw [trapz_congr n _ (fun x => |f x| ^ 2 / trapz n (fun y => |f y| ^ 2) g) g hcongr,
    trapz_div_const, div_self (ne_of_gt hpos)]

theorem normalized_2d {a : Type} [Fintype a] (f : a → ℝ) (dx dy : ℝ)
    (hpos : 0 < (∑ p, |f p| ^ 2) * dx * dy) :
    (∑ p, |f p / Real.sqrt ((∑ q, |f q| ^ 2) * dx * dy)| ^ 2) * dx * dy = 1 := by
  set T := (∑ q, |f q| ^ 2) * dx * dy with hT
  have hs : Real.sqrt T ^ 2 = T := Real.sq_sqrt (le_of_lt hpos)
  have hcongr : ∀ p, |f p / Real.sqrt T| ^ 2 = |f p| ^ 2 / T := by
    intro p
    rw [abs_div, div_pow, abs_of_nonneg (Real.sqrt_nonneg _), hs]
  calc (∑ p, |f p / Real.sqrt T| ^ 2) * dx * dy
      = (∑ p, |f p| ^ 2 / T) * dx * dy := by
        rw [Finset.sum_congr rfl fun p _ => hcongr p]
    _ = ((∑ p, |f p| ^ 2) / T) * dx * dy := by rw [← Finset.sum_div]
    _ = T / T := by rw [hT]; ring
    _ = 1 := div_self (ne_of_gt hpos)

/-- C7: after a solve, `get_eigenfunction` returns the cached eigenvector
divided by the square root of its numerically integrated probability
(trapezoidal rule on the grid in 1D, Riemann sum `Σ|ψ|²·dx·dy` in 2D), and
whenever that integral is positive the returned state integrates to 1. -/
theorem eigenfunction_normalized :
    (∀ (n k : ℕ) (s : Schrodinger1D n) (r : EigshResult n k) (m : Fin k),
       s.cached = some ⟨k, r⟩ →
       0 < trapz n (fun x => |r.eigenvectors x m| ^ 2) s.x_grid →
       ∃ psi, s.get_eigenfunction (m.val : ℤ) = Except.ok psi ∧
         psi = (fun x => r.eigenvectors x m /
           Real.sqrt (trapz n (fun y => |r.eigenvectors y m| ^ 2) s.x_grid)) ∧
         trapz n (fun x => |psi x| ^ 2) s.x_grid = 1) ∧
    (∀ (nx ny k : ℕ) (s : Schrodinger2D nx ny) (r : EigshResult (ny * nx) k)
       (m : Fin k),
       s.cached = some ⟨k, r⟩ →
       0 < (∑ pq : Fin ny × Fin nx,
             |reshape2 nx ny (fun x => r.eigenvectors x m) pq| ^ 2) * s.dx * s.dy →
       ∃ psi, s.get_eigenfunction (m.val : ℤ) = Except.ok psi ∧
         psi = (fun pq => reshape2 nx ny (fun x => r.eigenvectors x m) pq /
           Real.sqrt ((∑ pq : Fin ny × Fin nx,
             |reshape2 nx ny (fun x => r.eigenvectors x m) pq| ^ 2) * s.dx * s.dy)) ∧
         (∑ pq : Fin ny × Fin nx, |psi pq| ^ 2) * s.dx * s.dy = 1) := by
  constructor
  · intro n k s r m hc hpos
    refine ⟨_, get_eigenfunction_ok s r m hc, rfl, ?_⟩
    exact normalized_1d (fun x => r.eigenvectors x m) s.x_grid hpos
  · intro nx ny k s r m hc hpos
    refine ⟨_, get_eigenfunction2_ok s r m hc, rfl, ?_⟩
    exact normalized_2d (reshape2 nx ny fun x => r.eigenvectors x m) s.dx s.dy hpos

theorem trapz_two (y x : Fin 2 → ℝ) :
    trapz 2 y x = (x 1 - x 0) * (y 0 + y 1) / 2 := by
  unfold trapz
  rw [Fin.sum_univ_one]
  norm_num

theorem eigenfunction_normalized_witness :
    (∃ psi, s7.get_eigenfunction (((0 : Fin 1)).val : ℤ) = Except.ok psi ∧
       psi = (fun x => (onesR 2 1).eigenvectors x 0 /
         Real.sqrt (trapz 2 (fun y => |(onesR 2 1).eigenvectors y 0| ^ 2) s7.x_grid)) ∧
       trapz 2 (fun x => |psi x| ^ 2) s7.x_grid = 1) ∧
    (∃ psi, s7b.get_eigenfunction (((0 : Fin 1)).val : ℤ) = Except.ok psi ∧
       psi = (fun pq => reshape2 1 1 (fun x => (onesR 1 1).eigenvectors x 0) pq /
         Real.sqrt ((∑ pq : Fin 1 × Fin 1,
           |reshape2 1 1 (fun x => (onesR 1 1).eigenvectors x 0) pq| ^ 2) * s7b.dx * s7b.dy)) ∧
       (∑ pq : Fin 1 × Fin 1, |psi pq| ^ 2) * s7b.dx * s7b.dy = 1) := by
  constructor
  · refine eigenfunction_normalized.1 2 1 s7 (onesR 2 1) 0 rfl ?_
    rw [trapz_two]
    simp [onesR, s7]
  · refine eigenfunction_normalized.2 1 1 1 s7b (onesR 1 1) 0 rfl ?_
    simp [reshape2, onesR, s7b, Fintype.sum_prod_type, Fin.sum_univ_one]
